import Mathlib

/-!
Verification development for the passport-dataset augmentation engines:
the perspective-skew transform (create_skewed_dataset.py,
create_combined_skewed_dataset.py) and the lighting-effect synthesis engine
(create_lighting_effects.py).

Modelling conventions:
* a decoded raster image is a width, a height and a total pixel function
  taking an x-column, a y-row and a channel index to an 8-bit value;
* numpy float32 / float64 arithmetic is modelled over the real numbers, and
  the purely rational parts of the skew pipeline over the rationals;
* randomness (glare centres, shadow shapes, coin flips, gradient
  directions) is injected explicitly as parameters, one draw per use, as
  the spec directs for testability;
* numpy astype(uint8) truncates toward zero and wraps modulo 256; OpenCV
  saturate_cast rounds to nearest even and clamps.  Both are modelled.
-/

namespace Passports

/-- A decoded raster image: dimensions plus an 8-bit, three-channel pixel
function, indexed as pix x y c with x the column and y the row. -/
structure Image where
  width : ℕ
  height : ℕ
  pix : ℕ → ℕ → Fin 3 → ℕ

/-- A well-formed uint8 buffer: every channel value fits in 8 bits. -/
def Image.valid8 (img : Image) : Prop := ∀ x y c, img.pix x y c ≤ 255

/-- Truncation toward zero of a real, as python/numpy int casting does. -/
noncomputable def truncZ (v : ℝ) : ℤ := if 0 ≤ v then ⌊v⌋ else -⌊-v⌋

/-- numpy astype(uint8): truncate toward zero, then wrap modulo 256. -/
noncomputable def toU8 (v : ℝ) : ℕ := (truncZ v % 256).toNat

/-- Round half to even on the rationals (the rounding used by OpenCV's
saturate_cast when converting interpolated values back to uint8). -/
def rne (v : ℚ) : ℤ := if v - ⌊v⌋ = 1 / 2 then 2 * round (v / 2) else round v

/-- OpenCV saturate_cast to uint8: round to nearest even, clamp to [0, 255]. -/
def satCastU8 (v : ℚ) : ℕ := (min 255 (max 0 (rne v))).toNat

/-- Matrix of the projective frame through four points: columns are the
homogeneous first three points, each scaled (Cramer determinants) so that
the column sum is the homogeneous fourth point up to a global factor.  This
is the classical direct-linear-transform construction; the matrix cv2's
getPerspectiveTransform solves for is this one up to a nonzero scale. -/
def frameMat (p0 p1 p2 p3 : ℚ × ℚ) : Matrix (Fin 3) (Fin 3) ℚ :=
  let l0 : ℚ := Matrix.det !![p3.1, p1.1, p2.1; p3.2, p1.2, p2.2; 1, 1, 1]
  let l1 : ℚ := Matrix.det !![p0.1, p3.1, p2.1; p0.2, p3.2, p2.2; 1, 1, 1]
  let l2 : ℚ := Matrix.det !![p0.1, p1.1, p3.1; p0.2, p1.2, p3.2; 1, 1, 1]
  !![p0.1, p1.1, p2.1; p0.2, p1.2, p2.2; 1, 1, 1] * Matrix.diagonal ![l0, l1, l2]

/-- Model of cv2.getPerspectiveTransform: the homography taking the four
source corners s0..s3 to the four destination corners d0..d3 (as a 3x3
matrix, determined up to the projectively irrelevant nonzero scale). -/
def getPerspectiveTransform (s0 s1 s2 s3 d0 d1 d2 d3 : ℚ × ℚ) :
    Matrix (Fin 3) (Fin 3) ℚ :=
  frameMat d0 d1 d2 d3 * (frameMat s0 s1 s2 s3).adjugate

/-- Inverse projective action of M on a destination pixel, as
cv2.warpPerspective performs it (it inverts the forward matrix; the
adjugate is that inverse up to the projectively irrelevant scale). -/
def projInv (M : Matrix (Fin 3) (Fin 3) ℚ) (x y : ℚ) : Option (ℚ × ℚ) :=
  let N := M.adjugate
  let X := N 0 0 * x + N 0 1 * y + N 0 2
  let Y := N 1 0 * x + N 1 1 * y + N 1 2
  let Wc := N 2 0 * x + N 2 1 * y + N 2 2
  if Wc = 0 then none else some (X / Wc, Y / Wc)

/-- Source sample with the default constant black border outside the image. -/
def pixAt (img : Image) (i j : ℤ) (c : Fin 3) : ℚ :=
  if 0 ≤ i ∧ i < img.width ∧ 0 ≤ j ∧ j < img.height then
    img.pix i.toNat j.toNat c else 0

/-- Bilinear interpolation of the source image at rational coordinates,
cv2.warpPerspective's default INTER_LINEAR sampling (modelled exactly over
the rationals rather than in OpenCV's 5-bit fixed point; the two agree on
integral sample positions, which is all the theorems below rely on). -/
def bilinear (img : Image) (sx sy : ℚ) (c : Fin 3) : ℚ :=
  let x0 := ⌊sx⌋
  let y0 := ⌊sy⌋
  let fx := sx - x0
  let fy := sy - y0
  (1 - fx) * (1 - fy) * pixAt img x0 y0 c +
    fx * (1 - fy) * pixAt img (x0 + 1) y0 c +
    (1 - fx) * fy * pixAt img x0 (y0 + 1) c +
    fx * fy * pixAt img (x0 + 1) (y0 + 1) c

/-- Model of cv2.warpPerspective image M size: every destination pixel is
inverse-mapped through M and sampled bilinearly from the source. -/
def warpPerspective (img : Image) (M : Matrix (Fin 3) (Fin 3) ℚ)
    (sz : ℕ × ℕ) : Image :=
  { width := sz.1, height := sz.2,
    pix := fun x y c =>
      match projInv M (x : ℚ) (y : ℚ) with
      | none => 0
      | some p => satCastU8 (bilinear img p.1 p.2 c) }

/-- apply_horizontal_skew from create_skewed_dataset.py: bottom corners
shift right by skew_factor * height; canvas
(int(width + abs(skew_factor * height)), height). -/
def apply_horizontal_skew (image : Image) (skew_factor : ℚ) : Image :=
  let height : ℚ := image.height
  let width : ℚ := image.width
  let matrix := getPerspectiveTransform
    (0, 0) (width, 0) (0, height) (width, height)
    (0, 0) (width, 0) (skew_factor * height, height)
    (width + skew_factor * height, height)
  warpPerspective image matrix
    ((⌊width + |skew_factor * height|⌋).toNat, image.height)

/-- apply_vertical_skew from create_skewed_dataset.py: the top-right corner
shifts right by skew_factor * width; canvas
(int(width + abs(skew_factor * width)), height). -/
def apply_vertical_skew (image : Image) (skew_factor : ℚ) : Image :=
  let height : ℚ := image.height
  let width : ℚ := image.width
  let matrix := getPerspectiveTransform
    (0, 0) (width, 0) (0, height) (width, height)
    (0, 0) (width + skew_factor * width, 0) (0, height) (width, height)
  warpPerspective image matrix
    ((⌊width + |skew_factor * width|⌋).toNat, image.height)

/-- The four destination corners of apply_combined_skew in
create_combined_skewed_dataset.py, in source order top-left, top-right,
bottom-left, bottom-right (the 0-factors are written exactly as in the
source). -/
def combinedDst (width height h_skew_factor v_skew_factor : ℚ) :
    (ℚ × ℚ) × (ℚ × ℚ) × (ℚ × ℚ) × (ℚ × ℚ) :=
  ((v_skew_factor * 0, 0),
   (width + v_skew_factor * 0, h_skew_factor * width),
   (v_skew_factor * height, height),
   (width + v_skew_factor * height, height + h_skew_factor * width))

/-- apply_combined_skew from create_combined_skewed_dataset.py: all four
destination corners are computed from both factors at once, one projective
mapping is derived, and the canvas is
(int(width + abs(v_skew_factor * height) + abs(h_skew_factor * width)),
 int(height + abs(h_skew_factor * width))). -/
def apply_combined_skew (image : Image) (h_skew_factor v_skew_factor : ℚ) :
    Image :=
  let height : ℚ := image.height
  let width : ℚ := image.width
  let d := combinedDst width height h_skew_factor v_skew_factor
  let matrix := getPerspectiveTransform
    (0, 0) (width, 0) (0, height) (width, height)
    d.1 d.2.1 d.2.2.1 d.2.2.2
  warpPerspective image matrix
    ((⌊width + |v_skew_factor * height| + |h_skew_factor * width|⌋).toNat,
     (⌊height + |h_skew_factor * width|⌋).toNat)

/-- The random draws of one glare instance in add_glare_effect: centre
(integer randint draws) and radius. -/
structure GlareParams where
  center_x : ℤ
  center_y : ℤ
  radius : ℤ

/-- Squared integer distance of pixel (x, y) from the glare centre. -/
def glareDist2 (g : GlareParams) (x y : ℕ) : ℤ :=
  ((x : ℤ) - g.center_x) ^ 2 + ((y : ℤ) - g.center_y) ^ 2

/-- Glare gradient of add_glare_effect:
np.clip(np.exp(-distance / (radius * 0.5)), 0, 1). -/
noncomputable def glareGradient (g : GlareParams) (x y : ℕ) : ℝ :=
  min 1 (max 0 (Real.exp (-(Real.sqrt (glareDist2 g x y : ℝ)) /
    ((g.radius : ℝ) * 0.5))))

/-- One iteration of the glare loop on the float32 working buffer: pixels
inside the circle get the additive glare and are clipped to [0, 255];
pixels outside are untouched by that instance. -/
noncomputable def glareStep (intensity : ℝ)
    (f : ℕ → ℕ → Fin 3 → ℝ) (g : GlareParams) : ℕ → ℕ → Fin 3 → ℝ :=
  fun x y c =>
    if glareDist2 g x y ≤ g.radius ^ 2 then
      min 255 (max 0 (f x y c + intensity * glareGradient g x y * 255))
    else f x y c

/-- The float32 working buffer of add_glare_effect after all glare
instances have been composited onto the copied input. -/
noncomputable def glareFloat (image : Image) (intensity : ℝ)
    (glares : List GlareParams) : ℕ → ℕ → Fin 3 → ℝ :=
  glares.foldl (glareStep intensity) (fun x y c => (image.pix x y c : ℝ))

/-- add_glare_effect from create_lighting_effects.py, with the per-instance
random draws injected as the list of glare parameters. -/
noncomputable def add_glare_effect (image : Image) (intensity : ℝ)
    (glares : List GlareParams) : Image :=
  { width := image.width, height := image.height,
    pix := fun x y c => toU8 (glareFloat image intensity glares x y c) }

/-- The random draws of one shadow instance: the chosen shape together with
its shape parameters (rectangle bounds, circle centre and radius, or
polygon vertices). -/
inductive ShadowShape where
  | rect (x1 y1 x2 y2 : ℕ)
  | circ (center_x center_y radius : ℤ)
  | poly (pts : List (ℤ × ℤ))

/-- Whether the horizontal ray from pixel (px, py) crosses the polygon edge
e, for the even-odd polygon-fill rule. -/
def edgeCrosses (px py : ℚ) (e : (ℤ × ℤ) × (ℤ × ℤ)) : Bool :=
  let x1 : ℚ := e.1.1
  let y1 : ℚ := e.1.2
  let x2 : ℚ := e.2.1
  let y2 : ℚ := e.2.2
  (decide (py < y1) != decide (py < y2)) &&
    decide (px < x1 + (py - y1) * (x2 - x1) / (y2 - y1))

/-- Even-odd point-in-polygon test, modelling the solid polygon fill
performed by cv2.fillPoly for the irregular shadow shape. -/
def insidePoly (pts : List (ℤ × ℤ)) (x y : ℕ) : Bool :=
  let n := pts.length
  ((List.range n).countP (fun i =>
    edgeCrosses x y (pts.getD i (0, 0), pts.getD ((i + 1) % n) (0, 0)))) % 2
    == 1

/-- The hard (pre-blur) 0/1 shadow mask of each shape in
add_shadow_effect: mask[y1:y2, x1:x2] = 1 for the rectangle, the disc
indicator for the circle, and the filled polygon (255 then / 255.0) for the
irregular shape. -/
def baseMask : ShadowShape → ℕ → ℕ → ℝ
  | .rect x1 y1 x2 y2 => fun x y =>
      if y1 ≤ y ∧ y < y2 ∧ x1 ≤ x ∧ x < x2 then 1 else 0
  | .circ cx cy r => fun x y =>
      if ((x : ℤ) - cx) ^ 2 + ((y : ℤ) - cy) ^ 2 ≤ r ^ 2 then 1 else 0
  | .poly pts => fun x y => if insidePoly pts x y then 1 else 0

/-- The Gaussian kernel size used to soften each shadow shape's edges. -/
def ksizeOf : ShadowShape → ℕ
  | .rect _ _ _ _ => 51
  | .circ _ _ _ => 31
  | .poly _ => 41

/-- OpenCV's sigma for GaussianBlur when sigma is passed as 0:
0.3 * ((ksize - 1) * 0.5 - 1) + 0.8. -/
noncomputable def gaussSigma (ksize : ℕ) : ℝ :=
  0.3 * (((ksize : ℝ) - 1) * 0.5 - 1) + 0.8

/-- Unnormalised 1-D Gaussian kernel coefficient at offset i. -/
noncomputable def gaussW (ksize : ℕ) (i : ℤ) : ℝ :=
  Real.exp (-((i : ℝ) ^ 2) / (2 * gaussSigma ksize ^ 2))

/-- Kernel radius: offsets run from -(ksize-1)/2 to (ksize-1)/2. -/
def kRad (ksize : ℕ) : ℕ := (ksize - 1) / 2

/-- Normalisation constant of the 1-D Gaussian kernel. -/
noncomputable def gaussNorm (ksize : ℕ) : ℝ :=
  ∑ i in Finset.Icc (-(kRad ksize : ℤ)) (kRad ksize : ℤ), gaussW ksize i

/-- Normalised 1-D Gaussian kernel coefficient. -/
noncomputable def gaussNW (ksize : ℕ) (i : ℤ) : ℝ :=
  gaussW ksize i / gaussNorm ksize

/-- OpenCV's BORDER_REFLECT_101 index folding for an axis of length n. -/
def reflect101 (n : ℕ) (c : ℤ) : ℕ :=
  if n ≤ 1 then 0
  else
    let p : ℤ := 2 * n - 2
    let r := c % p
    if r < n then r.toNat else (p - r).toNat

/-- cv2.GaussianBlur with a square ksize kernel and sigma 0 on a
single-channel float mask of size W x H: separable normalised Gaussian
convolution with reflect-101 border handling. -/
noncomputable def gaussianBlur (ksize W H : ℕ) (m : ℕ → ℕ → ℝ)
    (x y : ℕ) : ℝ :=
  ∑ i in Finset.Icc (-(kRad ksize : ℤ)) (kRad ksize : ℤ),
    ∑ j in Finset.Icc (-(kRad ksize : ℤ)) (kRad ksize : ℤ),
      gaussNW ksize i * gaussNW ksize j *
        m (reflect101 W ((x : ℤ) + i)) (reflect101 H ((y : ℤ) + j))

/-- The softened mask of one shadow instance: the shape's hard mask blurred
with the shape's kernel size. -/
noncomputable def shadowMask (W H : ℕ) (s : ShadowShape) (x y : ℕ) : ℝ :=
  gaussianBlur (ksizeOf s) W H (baseMask s) x y

/-- One iteration of the shadow loop on the float32 working buffer:
shadow_image = shadow_image * (1 - intensity * mask). -/
noncomputable def shadowStep (W H : ℕ) (intensity : ℝ)
    (f : ℕ → ℕ → Fin 3 → ℝ) (s : ShadowShape) : ℕ → ℕ → Fin 3 → ℝ :=
  fun x y c => f x y c * (1 - intensity * shadowMask W H s x y)

/-- The float32 working buffer of add_shadow_effect after all shadow
instances have darkened the copied input in sequence. -/
noncomputable def shadowFloat (image : Image) (intensity : ℝ)
    (shadows : List ShadowShape) : ℕ → ℕ → Fin 3 → ℝ :=
  shadows.foldl (shadowStep image.width image.height intensity)
    (fun x y c => (image.pix x y c : ℝ))

/-- add_shadow_effect from create_lighting_effects.py, with the
per-instance random draws injected as the list of shadow shapes. -/
noncomputable def add_shadow_effect (image : Image) (intensity : ℝ)
    (shadows : List ShadowShape) : Image :=
  { width := image.width, height := image.height,
    pix := fun x y c =>
      toU8 (min 255 (max 0 (shadowFloat image intensity shadows x y c))) }

/-- The random direction draw of the gradient lighting kind. -/
inductive GradDir where
  | horizontal
  | vertical
  | diagonal

/-- The random draws used by add_uneven_lighting: the gradient direction
and the spotlight centre offsets. -/
structure URand where
  dir : GradDir
  off_x : ℤ
  off_y : ℤ

/-- The gradient gain field of add_uneven_lighting: np.linspace ramps from
1 - intensity to 1 + intensity along the chosen axis (value at index k of
an n-point linspace is start + k * (stop - start) / (n - 1)), or the
diagonal ramp 1 - intensity + 2 * intensity * (x + y) / (width + height). -/
noncomputable def gradientGain (W H : ℕ) (intensity : ℝ) (dir : GradDir)
    (x y : ℕ) : ℝ :=
  match dir with
  | .horizontal =>
      if W ≤ 1 then 1 - intensity
      else 1 - intensity + (x : ℝ) * (2 * intensity / ((W : ℝ) - 1))
  | .vertical =>
      if H ≤ 1 then 1 - intensity
      else 1 - intensity + (y : ℝ) * (2 * intensity / ((H : ℝ) - 1))
  | .diagonal =>
      1 - intensity + 2 * intensity * (((x : ℝ) + (y : ℝ)) / ((W : ℝ) + (H : ℝ)))

/-- The spotlight gain field of add_uneven_lighting: centre offset from the
integer image centre by the random draws, gain
np.clip(1 + intensity * (1 - d / maxDist), 1 - intensity, 1 + intensity). -/
noncomputable def spotlightGain (W H : ℕ) (intensity : ℝ) (off_x off_y : ℤ)
    (x y : ℕ) : ℝ :=
  let cx : ℤ := (W / 2 : ℕ) + off_x
  let cy : ℤ := (H / 2 : ℕ) + off_y
  let d : ℝ := Real.sqrt (((x : ℝ) - (cx : ℝ)) ^ 2 + ((y : ℝ) - (cy : ℝ)) ^ 2)
  let maxd : ℝ := Real.sqrt ((W : ℝ) ^ 2 + (H : ℝ) ^ 2) / 2
  min (1 + intensity) (max (1 - intensity) (1 + intensity * (1 - d / maxd)))

/-- The vignette gain field of add_uneven_lighting: centre fixed at the
integer image centre (width // 2, height // 2), gain
np.clip(1 - intensity * (d / maxDist) ^ 2, 1 - intensity, 1) with maxDist
the half-diagonal sqrt((width / 2) ^ 2 + (height / 2) ^ 2). -/
noncomputable def vignetteGain (W H : ℕ) (intensity : ℝ) (x y : ℕ) : ℝ :=
  let cx : ℕ := W / 2
  let cy : ℕ := H / 2
  let d : ℝ := Real.sqrt (((x : ℝ) - (cx : ℝ)) ^ 2 + ((y : ℝ) - (cy : ℝ)) ^ 2)
  let maxd : ℝ := Real.sqrt (((W : ℝ) / 2) ^ 2 + ((H : ℝ) / 2) ^ 2)
  min 1 (max (1 - intensity) (1 - intensity * (d / maxd) ^ 2))

/-- Multiplication of the copied image by a full-frame gain field followed
by np.clip(.., 0, 255).astype(np.uint8), shared by all three uneven
lighting kinds. -/
noncomputable def applyGain (image : Image) (gain : ℕ → ℕ → ℝ) : Image :=
  { width := image.width, height := image.height,
    pix := fun x y c =>
      toU8 (min 255 (max 0 ((image.pix x y c : ℝ) * gain x y))) }

/-- The Python errors the lighting module can surface: the structured
InvalidEffectSpec the specification promises, and the NameError that
add_uneven_lighting actually raises when lighting_type is unrecognised
(the local variable gradient is then never bound before use). -/
inductive PyErr where
  | invalidEffectSpec
  | nameError
deriving DecidableEq

/-- add_uneven_lighting from create_lighting_effects.py.  For an
unrecognised lighting_type none of the branches assigns gradient and line
141 raises NameError. -/
noncomputable def add_uneven_lighting (image : Image)
    (lighting_type : String) (intensity : ℝ) (u : URand) :
    Except PyErr Image :=
  if lighting_type = "gradient" then
    .ok (applyGain image (gradientGain image.width image.height intensity u.dir))
  else if lighting_type = "spotlight" then
    .ok (applyGain image
      (spotlightGain image.width image.height intensity u.off_x u.off_y))
  else if lighting_type = "vignette" then
    .ok (applyGain image (vignetteGain image.width image.height intensity))
  else .error .nameError

/-- The possible results of apply_lighting_effects: a single image, the
labelled tuple of the all mode, the implicit Python None of the final
fall-through, or a raised error. -/
inductive LOutcome where
  | one (img : Image)
  | many (glareImg shadowImg : Image) (lightingImgs : List Image)
  | pyNone
  | raised (e : PyErr)

/-- All random draws consumed by one apply_lighting_effects call. -/
structure LRand where
  uneven_pick : Fin 3
  combined_pick : Fin 3
  coin_uneven : Bool
  coin_shadow : Bool
  coin_glare : Bool
  u : URand
  glares : List GlareParams
  shadows : List ShadowShape

/-- The lighting-kind list random.choice draws from. -/
def lightingTypes : List String := ["gradient", "spotlight", "vignette"]

/-- The string random.choice returns for a given draw index. -/
def pickType : Fin 3 → String
  | 0 => "gradient"
  | 1 => "spotlight"
  | 2 => "vignette"

/-- Lift the result of add_uneven_lighting into an LOutcome (a raised
exception propagates out of apply_lighting_effects). -/
def exceptOutcome : Except PyErr Image → LOutcome
  | .ok i => .one i
  | .error e => .raised e

/-- apply_lighting_effects from create_lighting_effects.py.  Recognised
effect types dispatch to the sub-effects; the combined mode composes the
coin-flipped sub-effects on the running buffer with intensities scaled by
0.8; the all mode runs every effect against the original image; any other
effect type falls off the end of the function and returns Python None. -/
noncomputable def apply_lighting_effects (image : Image)
    (effect_type : String)
    (glare_intensity shadow_intensity lighting_intensity : ℝ)
    (r : LRand) : LOutcome :=
  if effect_type = "glare" then
    .one (add_glare_effect image glare_intensity r.glares)
  else if effect_type = "shadow" then
    .one (add_shadow_effect image shadow_intensity r.shadows)
  else if effect_type = "uneven_light" then
    exceptOutcome
      (add_uneven_lighting image (pickType r.uneven_pick) lighting_intensity r.u)
  else if effect_type = "combined" then
    let s1 :=
      if r.coin_uneven then
        add_uneven_lighting image (pickType r.combined_pick)
          (lighting_intensity * 0.8) r.u
      else .ok image
    match s1 with
    | .error e => .raised e
    | .ok r2 =>
        let r3 := if r.coin_shadow then
          add_shadow_effect r2 (shadow_intensity * 0.8) r.shadows else r2
        let r4 := if r.coin_glare then
          add_glare_effect r3 (glare_intensity * 0.8) r.glares else r3
        .one r4
  else if effect_type = "all" then
    match add_uneven_lighting image "gradient" lighting_intensity r.u,
        add_uneven_lighting image "spotlight" lighting_intensity r.u,
        add_uneven_lighting image "vignette" lighting_intensity r.u with
    | .ok g, .ok s, .ok v =>
        .many (add_glare_effect image glare_intensity r.glares)
          (add_shadow_effect image shadow_intensity r.shadows) [g, s, v]
    | .error e, _, _ => .raised e
    | _, .error e, _ => .raised e
    | _, _, .error e => .raised e
  else .pyNone

/-- A store of numpy pixel buffers, identified by allocation order.  Used
to model which ndarray allocations the lighting functions perform and
which buffers they mutate: image.copy(), astype and array arithmetic all
allocate fresh buffers, while sliced assignment mutates in place. -/
structure Heap where
  bufs : ℕ → (ℕ → ℕ → Fin 3 → ℝ)
  next : ℕ

/-- Allocate a fresh buffer holding v, returning its id. -/
def Heap.alloc (h : Heap) (v : ℕ → ℕ → Fin 3 → ℝ) : ℕ × Heap :=
  (h.next, ⟨Function.update h.bufs h.next v, h.next + 1⟩)

/-- Mutate buffer b in place to hold v. -/
def Heap.write (h : Heap) (b : ℕ) (v : ℕ → ℕ → Fin 3 → ℝ) : Heap :=
  ⟨Function.update h.bufs b v, h.next⟩

/-- add_glare_effect at the buffer level: allocate the float32 working
copy of the caller's buffer, mutate that copy in place once per glare
instance (sliced masked assignment), then allocate the uint8 result. -/
noncomputable def add_glare_heap (h : Heap) (src : ℕ) (intensity : ℝ)
    (glares : List GlareParams) : ℕ × Heap :=
  let a := h.alloc (h.bufs src)
  let h2 := glares.foldl
    (fun hh g => hh.write a.1 (glareStep intensity (hh.bufs a.1) g)) a.2
  h2.alloc (fun x y c => (toU8 (h2.bufs a.1 x y c) : ℝ))

/-- add_shadow_effect at the buffer level: allocate the float32 working
copy, then each loop iteration rebinds shadow_image to a freshly
allocated product array, and the final clip-and-cast allocates the uint8
result. -/
noncomputable def add_shadow_heap (h : Heap) (src : ℕ) (intensity : ℝ)
    (shadows : List ShadowShape) (W H : ℕ) : ℕ × Heap :=
  let a := h.alloc (h.bufs src)
  let b := shadows.foldl
    (fun (p : ℕ × Heap) s => p.2.alloc
      (fun x y c => p.2.bufs p.1 x y c * (1 - intensity * shadowMask W H s x y)))
    a
  b.2.alloc (fun x y c => (toU8 (min 255 (max 0 (b.2.bufs b.1 x y c))) : ℝ))

/-- add_uneven_lighting at the buffer level (for a recognised kind with
gain field gain): allocate the float32 working copy, the gain
multiplication allocates a product array, and the final clip-and-cast
allocates the uint8 result. -/
noncomputable def add_uneven_heap (h : Heap) (src : ℕ)
    (gain : ℕ → ℕ → ℝ) : ℕ × Heap :=
  let a := h.alloc (h.bufs src)
  let b := a.2.alloc (fun x y c => a.2.bufs a.1 x y c * gain x y)
  b.2.alloc (fun x y c => (toU8 (min 255 (max 0 (b.2.bufs b.1 x y c))) : ℝ))

/-- The all-black 50 x 50 image of the end-to-end glare scenario. -/
def black50 : Image := ⟨50, 50, fun _ _ _ => 0⟩

/-- A 100-wide, 5-high all-black image (canvas-formula counterexample). -/
def img100x5 : Image := ⟨100, 5, fun _ _ _ => 0⟩

/-- A tiny valid image used to witness the skew identity property. -/
def img1x1 : Image := ⟨1, 1, fun _ _ _ => 7⟩

/-- A fixed bundle of random draws used for concrete evaluations. -/
def lrand0 : LRand :=
  ⟨0, 0, false, false, false, ⟨GradDir.horizontal, 0, 0⟩, [], []⟩

lemma floor_nat_add_abs_toNat (w : ℕ) (s : ℚ) :
    (⌊(w : ℚ) + |s|⌋).toNat = w + (⌊|s|⌋).toNat := by
  rw [add_comm ((w : ℚ)) _, Int.floor_add_nat,
    Int.toNat_add (Int.floor_nonneg.2 (abs_nonneg _)) (Int.natCast_nonneg w),
    Int.toNat_natCast, add_comm]

/-- C1 counterexample: at a 100 x 50 image with hFactor 1/5 and vFactor
1/10, the combined-mode destination top-right corner's x-coordinate is not
width + hFactor * width (the code leaves it at width, moving the corner
down instead), and the bottom-right corner's x-coordinate is not
width + vFactor * height + hFactor * width (the code moves it right by
vFactor * height only). -/
theorem combined_skew_corners_cex :
    (combinedDst 100 50 (1 / 5) (1 / 10)).2.1.1 ≠ 100 + (1 / 5) * 100 ∧
    (combinedDst 100 50 (1 / 5) (1 / 10)).2.2.2.1 ≠
      100 + ((1 / 10) * 50 + (1 / 5) * 100) := by
  constructor <;> norm_num [combinedDst]

/-- C1 (amended): in the combined-mode skew of apply_combined_skew, the
top-left corner is unshifted, the top-right corner keeps its x-coordinate
and moves down by hFactor * width, the bottom-left corner moves right by
vFactor * height, and the bottom-right corner moves right by
vFactor * height and down by hFactor * width; all four destination corners
are computed simultaneously from both factors and a single projective
mapping is derived from them. -/
theorem combined_skew_corners (image : Image) (w h hf vf : ℚ) :
    (combinedDst w h hf vf).1 = (0, 0) ∧
    (combinedDst w h hf vf).2.1 = (w, hf * w) ∧
    (combinedDst w h hf vf).2.2.1 = (vf * h, h) ∧
    (combinedDst w h hf vf).2.2.2 = (w + vf * h, h + hf * w) ∧
    apply_combined_skew image hf vf =
      warpPerspective image
        (getPerspectiveTransform (0, 0) ((image.width : ℚ), 0)
          (0, (image.height : ℚ)) ((image.width : ℚ), (image.height : ℚ))
          (combinedDst image.width image.height hf vf).1
          (combinedDst image.width image.height hf vf).2.1
          (combinedDst image.width image.height hf vf).2.2.1
          (combinedDst image.width image.height hf vf).2.2.2)
        ((⌊(image.width : ℚ) + |vf * (image.height : ℚ)| +
            |hf * (image.width : ℚ)|⌋).toNat,
         (⌊(image.height : ℚ) + |hf * (image.width : ℚ)|⌋).toNat) :=
  ⟨by simp [combinedDst], by simp [combinedDst], by simp [combinedDst],
   by simp [combinedDst], rfl⟩

/-- C3 counterexample: for a 100 x 5 image and horizontal factor 3/10 the
code's canvas width is int(100 + 1.5) = 101, but
width + round(abs(hFactor * height)) = 100 + round(1.5) = 102. -/
theorem skew_canvas_round_cex :
    (apply_horizontal_skew img100x5 (3 / 10)).width ≠
      img100x5.width + (round |(3 / 10 : ℚ) * (img100x5.height : ℚ)|).toNat := by
  have h1 : (apply_horizontal_skew img100x5 (3 / 10)).width = 101 := by
    show (⌊((100 : ℕ) : ℚ) + |(3 / 10 : ℚ) * ((5 : ℕ) : ℚ)|⌋).toNat = 101
    have h : ⌊((100 : ℕ) : ℚ) + |(3 / 10 : ℚ) * ((5 : ℕ) : ℚ)|⌋ = 101 := by
      rw [Int.floor_eq_iff]
      constructor <;> norm_num [abs_of_nonneg]
    rw [h]
    rfl
  have h2 : img100x5.width +
      (round |(3 / 10 : ℚ) * (img100x5.height : ℚ)|).toNat = 102 := by
    show (100 : ℕ) + (round |(3 / 10 : ℚ) * ((5 : ℕ) : ℚ)|).toNat = 102
    have h : round |(3 / 10 : ℚ) * ((5 : ℕ) : ℚ)| = 2 := by
      rw [round_eq, Int.floor_eq_iff]
      constructor <;> norm_num [abs_of_nonneg]
    rw [h]
    rfl
  rw [h1, h2]
  decide

/-- C3 (amended): for every image and skew factor the output canvas of
horizontal-mode skew is (width + floor(abs(hFactor * height)), height) and
that of vertical-mode skew is (width + floor(abs(vFactor * width)),
height); the fractional displacement is truncated (Python int()), not
rounded to nearest. -/
theorem skew_canvas_size (image : Image) (f : ℚ) :
    ((apply_horizontal_skew image f).width =
        image.width + (⌊|f * (image.height : ℚ)|⌋).toNat ∧
      (apply_horizontal_skew image f).height = image.height) ∧
    ((apply_vertical_skew image f).width =
        image.width + (⌊|f * (image.width : ℚ)|⌋).toNat ∧
      (apply_vertical_skew image f).height = image.height) :=
  ⟨⟨floor_nat_add_abs_toNat image.width (f * image.height), rfl⟩,
   ⟨floor_nat_add_abs_toNat image.width (f * image.width), rfl⟩⟩

lemma sqrt_div_sq (a b : ℝ) (ha : 0 ≤ a) (hb : 0 ≤ b) :
    (Real.sqrt a / Real.sqrt b) ^ 2 = a / b := by
  rw [div_pow, Real.sq_sqrt ha, Real.sq_sqrt hb]

lemma vignetteGain_eval (W H : ℕ) (i : ℝ) (x y : ℕ) :
    vignetteGain W H i x y =
      min 1 (max (1 - i)
        (1 - i * ((((x : ℝ) - ((W / 2 : ℕ) : ℝ)) ^ 2 +
            ((y : ℝ) - ((H / 2 : ℕ) : ℝ)) ^ 2) /
          (((W : ℝ) / 2) ^ 2 + ((H : ℝ) / 2) ^ 2)))) := by
  simp only [vignetteGain]
  rw [sqrt_div_sq _ _ (by positivity) (by positivity)]

/-- C5 counterexample: for the odd-dimension 3 x 3 image with intensity
1/2 the corner pixel's vignette gain is 7/9, not 1 - 1/2 (the integer
centre (1, 1) is nearer the corner than the half-diagonal), and for a
2 x 2 image with negative intensity -1 the corner gain is clamped to 1,
not 1 - (-1) = 2. -/
theorem vignette_gain_cex :
    vignetteGain 3 3 (1 / 2) 0 0 ≠ 1 - 1 / 2 ∧
    vignetteGain 2 2 (-1) 0 0 ≠ 1 - (-1) := by
  constructor
  · rw [vignetteGain_eval]
    norm_num [min_def, max_def]
  · rw [vignetteGain_eval]
    norm_num [min_def, max_def]

/-- C5 (amended): for every image of even positive width and height and
every intensity with 0 <= intensity, the vignette gain field equals 1 at
the integer image centre, equals its lower clamp 1 - intensity at the
farthest corner pixel (0, 0), and is at least 1 - intensity at every
pixel, following the clamped squared-distance falloff
1 - intensity * (d / maxDist)^2.  (For odd dimensions the corner distance
is strictly below the half-diagonal and the corner gain stays above
1 - intensity, and for negative intensity the upper clamp keeps the field
at 1.) -/
theorem vignette_gain_spec (a b : ℕ) (i : ℝ) (ha : 0 < a) (hb : 0 < b)
    (hi : 0 ≤ i) :
    vignetteGain (2 * a) (2 * b) i a b = 1 ∧
    vignetteGain (2 * a) (2 * b) i 0 0 = 1 - i ∧
    ∀ x y, 1 - i ≤ vignetteGain (2 * a) (2 * b) i x y := by
  have hdiv : (2 * a) / 2 = a := Nat.mul_div_cancel_left a (by norm_num)
  have hdivb : (2 * b) / 2 = b := Nat.mul_div_cancel_left b (by norm_num)
  have hden : ((2 * a : ℕ) : ℝ) / 2 = (a : ℝ) := by push_cast; ring
  have hdenb : ((2 * b : ℕ) : ℝ) / 2 = (b : ℝ) := by push_cast; ring
  have hpos : (0 : ℝ) < (a : ℝ) ^ 2 + (b : ℝ) ^ 2 := by
    have : (0 : ℝ) < (a : ℝ) := by exact_mod_cast ha
    positivity
  refine ⟨?_, ?_, ?_⟩
  · rw [vignetteGain_eval, hdiv, hdivb, hden, hdenb]
    norm_num
  · rw [vignetteGain_eval, hdiv, hdivb, hden, hdenb]
    rw [show ((0 : ℕ) : ℝ) - (a : ℝ) = -(a : ℝ) by push_cast; ring,
      show ((0 : ℕ) : ℝ) - (b : ℝ) = -(b : ℝ) by push_cast; ring]
    rw [neg_pow, neg_pow]
    norm_num
    rw [div_self (ne_of_gt hpos), mul_one, max_self, min_eq_right (by linarith)]
  · intro x y
    rw [vignetteGain_eval]
    exact le_min (by linarith) (le_max_left _ _)

/-- Witness for the amended vignette property at a 2 x 2 image with
intensity 1/2. -/
theorem vignette_gain_spec_witness :
    vignetteGain (2 * 1) (2 * 1) (1 / 2) 1 1 = 1 ∧
    vignetteGain (2 * 1) (2 * 1) (1 / 2) 0 0 = 1 - 1 / 2 ∧
    (1 - 1 / 2 : ℝ) ≤ vignetteGain (2 * 1) (2 * 1) (1 / 2) 0 1 :=
  ⟨(vignette_gain_spec 1 1 (1 / 2) one_pos one_pos (by norm_num)).1,
   (vignette_gain_spec 1 1 (1 / 2) one_pos one_pos (by norm_num)).2.1,
   (vignette_gain_spec 1 1 (1 / 2) one_pos one_pos (by norm_num)).2.2 0 1⟩

lemma truncZ_of_nonneg (v : ℝ) (h : 0 ≤ v) : truncZ v = ⌊v⌋ := if_pos h

lemma floor_real_255 : ⌊(255 : ℝ)⌋ = 255 := by
  rw [show (255 : ℝ) = ((255 : ℕ) : ℝ) by norm_num]
  exact Int.floor_natCast 255

lemma toU8_of_le (v : ℝ) (h0 : 0 ≤ v) (h255 : v ≤ 255) :
    toU8 v = (⌊v⌋).toNat := by
  unfold toU8
  rw [truncZ_of_nonneg v h0,
    Int.emod_eq_of_lt (Int.floor_nonneg.2 h0)
      (lt_of_le_of_lt (floor_real_255 ▸ Int.floor_le_floor h255) (by norm_num))]

lemma toU8_le_255 (v : ℝ) : toU8 v ≤ 255 := by
  unfold toU8
  have h1 : truncZ v % 256 < 256 := Int.emod_lt_of_pos _ (by norm_num)
  omega

lemma toU8_ge (v : ℝ) (n : ℕ) (hnv : (n : ℝ) ≤ v) (hv : v ≤ 255) :
    n ≤ toU8 v := by
  have h0 : (0 : ℝ) ≤ v := le_trans (Nat.cast_nonneg n) hnv
  rw [toU8_of_le v h0 hv]
  have h : (n : ℤ) ≤ ⌊v⌋ := Int.le_floor.2 (by exact_mod_cast hnv)
  omega

lemma toU8_le (v : ℝ) (n : ℕ) (h0 : 0 ≤ v) (hvn : v ≤ (n : ℝ))
    (hn : n ≤ 255) : toU8 v ≤ n := by
  rw [toU8_of_le v h0 (le_trans hvn (by exact_mod_cast hn))]
  have h : ⌊v⌋ ≤ (n : ℤ) := by
    have h2 := Int.floor_le_floor hvn
    rwa [Int.floor_natCast] at h2
  omega

lemma toU8_zero : toU8 0 = 0 := by
  rw [toU8_of_le 0 le_rfl (by norm_num), Int.floor_zero]
  rfl

lemma glare_center_pix (c : Fin 3) :
    (add_glare_effect black50 (7 / 10) [⟨25, 25, 5⟩]).pix 25 25 c = 178 := by
  show toU8 (glareFloat black50 (7 / 10) [⟨25, 25, 5⟩] 25 25 c) = 178
  have hgrad : glareGradient ⟨25, 25, 5⟩ 25 25 = 1 := by
    simp only [glareGradient, glareDist2]
    norm_num [Real.sqrt_zero, Real.exp_zero]
  have hval : glareFloat black50 (7 / 10) [⟨25, 25, 5⟩] 25 25 c = 357 / 2 := by
    simp only [glareFloat, List.foldl, glareStep]
    rw [if_pos (by decide : glareDist2 ⟨25, 25, 5⟩ 25 25 ≤ (5 : ℤ) ^ 2), hgrad]
    show min 255 (max 0 (((black50.pix 25 25 c : ℕ) : ℝ) + 7 / 10 * 1 * 255)) =
      357 / 2
    norm_num [black50]
  rw [hval, toU8_of_le (357 / 2) (by norm_num) (by norm_num)]
  have hf : ⌊(357 / 2 : ℝ)⌋ = 178 := by
    rw [Int.floor_eq_iff]
    constructor <;> norm_num
  rw [hf]
  rfl

lemma glare_far_pix (x y : ℕ) (c : Fin 3)
    (hd : ((x : ℤ) - 25) ^ 2 + ((y : ℤ) - 25) ^ 2 = 400) :
    (add_glare_effect black50 (7 / 10) [⟨25, 25, 5⟩]).pix x y c = 0 := by
  show toU8 (glareFloat black50 (7 / 10) [⟨25, 25, 5⟩] x y c) = 0
  have hmask : ¬ glareDist2 ⟨25, 25, 5⟩ x y ≤ (5 : ℤ) ^ 2 := by
    simp only [glareDist2]
    rw [hd]
    decide
  simp only [glareFloat, List.foldl, glareStep]
  rw [if_neg hmask]
  show toU8 ((black50.pix x y c : ℕ) : ℝ) = 0
  simp only [black50]
  exact_mod_cast toU8_zero

/-- C2 counterexample: in the end-to-end glare scenario (all-black 50 x 50
image, intensity 0.7, one glare centred at (25, 25) with radius 5) the
centre pixel does not become fully saturated: additive compositing gives
0 + 0.7 * 255 = 178.5, stored as 178, not 255. -/
theorem glare_scenario_cex :
    (add_glare_effect black50 (7 / 10) [⟨25, 25, 5⟩]).pix 25 25 0 ≠ 255 := by
  rw [glare_center_pix 0]
  decide

/-- C2 (amended): in the end-to-end glare scenario the centre pixel of
every channel becomes 178 = trunc(0.7 * 255) (bright but not fully
saturated), while every pixel at distance 20 from the centre lies outside
the radius-5 glare circle and is left unchanged. -/
theorem glare_scenario (x y : ℕ) (c : Fin 3)
    (hd : ((x : ℤ) - 25) ^ 2 + ((y : ℤ) - 25) ^ 2 = 400) :
    (add_glare_effect black50 (7 / 10) [⟨25, 25, 5⟩]).pix 25 25 c = 178 ∧
    (add_glare_effect black50 (7 / 10) [⟨25, 25, 5⟩]).pix x y c =
      black50.pix x y c := by
  refine ⟨glare_center_pix c, ?_⟩
  rw [glare_far_pix x y c hd]
  simp [black50]

/-- Witness for the amended glare scenario at the distance-20 pixel
(45, 25). -/
theorem glare_scenario_witness :
    (((45 : ℤ) - 25) ^ 2 + ((25 : ℤ) - 25) ^ 2 = 400) ∧
    (add_glare_effect black50 (7 / 10) [⟨25, 25, 5⟩]).pix 25 25 0 = 178 ∧
    (add_glare_effect black50 (7 / 10) [⟨25, 25, 5⟩]).pix 45 25 0 =
      black50.pix 45 25 0 :=
  ⟨by decide, (glare_scenario 45 25 0 (by decide)).1,
   (glare_scenario 45 25 0 (by decide)).2⟩

lemma glareGradient_nonneg (g : GlareParams) (x y : ℕ) :
    0 ≤ glareGradient g x y :=
  le_min zero_le_one (le_max_left 0 _)

lemma glareFold_bounds (i : ℝ) (hi : 0 ≤ i) (gs : List GlareParams) :
    ∀ (f : ℕ → ℕ → Fin 3 → ℝ) (x y : ℕ) (c : Fin 3), f x y c ≤ 255 →
      f x y c ≤ (gs.foldl (glareStep i) f) x y c ∧
        (gs.foldl (glareStep i) f) x y c ≤ 255 := by
  induction gs with
  | nil => exact fun f x y c h => ⟨le_rfl, h⟩
  | cons g gs ih =>
    intro f x y c h
    have hδ : 0 ≤ i * glareGradient g x y * 255 :=
      mul_nonneg (mul_nonneg hi (glareGradient_nonneg g x y)) (by norm_num)
    have hstep_low : f x y c ≤ glareStep i f g x y c := by
      unfold glareStep
      by_cases hm : glareDist2 g x y ≤ g.radius ^ 2
      · rw [if_pos hm]
        exact le_min h (le_trans (le_add_of_nonneg_right hδ) (le_max_right _ _))
      · rw [if_neg hm]
    have hstep_high : glareStep i f g x y c ≤ 255 := by
      unfold glareStep
      by_cases hm : glareDist2 g x y ≤ g.radius ^ 2
      · rw [if_pos hm]
        exact min_le_left _ _
      · rw [if_neg hm]
        exact h
    obtain ⟨l2, h2⟩ := ih (glareStep i f g) x y c hstep_high
    exact ⟨le_trans hstep_low l2, h2⟩

/-- C6 (confirmed): for every valid image, every nonnegative intensity,
and every list of glare instances, add_glare_effect never decreases any
channel value of any pixel. -/
theorem glare_monotone (image : Image) (intensity : ℝ)
    (glares : List GlareParams) (hi : 0 ≤ intensity) (hv : image.valid8)
    (x y : ℕ) (c : Fin 3) :
    image.pix x y c ≤ (add_glare_effect image intensity glares).pix x y c := by
  show image.pix x y c ≤ toU8 (glareFloat image intensity glares x y c)
  have h255 : ((image.pix x y c : ℕ) : ℝ) ≤ 255 := by exact_mod_cast hv x y c
  obtain ⟨hl, hh⟩ := glareFold_bounds intensity hi glares
    (fun x y c => ((image.pix x y c : ℕ) : ℝ)) x y c h255
  exact toU8_ge _ _ hl hh

/-- Witness for glare monotonicity on the all-black 50 x 50 image. -/
theorem glare_monotone_witness :
    (0 : ℝ) ≤ 7 / 10 ∧ black50.pix 3 4 0 ≤
      (add_glare_effect black50 (7 / 10) [⟨25, 25, 5⟩]).pix 3 4 0 :=
  ⟨by norm_num, glare_monotone black50 (7 / 10) [⟨25, 25, 5⟩] (by norm_num)
    (fun _ _ _ => Nat.zero_le 255) 3 4 0⟩

lemma gaussNorm_pos (k : ℕ) : 0 < gaussNorm k :=
  Finset.sum_pos (fun i _ => Real.exp_pos _)
    (Finset.nonempty_Icc.2 (neg_le_self (Int.natCast_nonneg _)))

lemma gaussNW_nonneg (k : ℕ) (i : ℤ) : 0 ≤ gaussNW k i :=
  div_nonneg (Real.exp_pos _).le (gaussNorm_pos k).le

lemma gaussNW_sum (k : ℕ) :
    ∑ i in Finset.Icc (-(kRad k : ℤ)) (kRad k : ℤ), gaussNW k i = 1 := by
  unfold gaussNW
  rw [← Finset.sum_div,
    show (∑ i in Finset.Icc (-(kRad k : ℤ)) (kRad k : ℤ), gaussW k i) =
      gaussNorm k from rfl,
    div_self (ne_of_gt (gaussNorm_pos k))]

lemma gaussianBlur_mem (k W H : ℕ) (m : ℕ → ℕ → ℝ)
    (hm : ∀ x y, 0 ≤ m x y ∧ m x y ≤ 1) (x y : ℕ) :
    0 ≤ gaussianBlur k W H m x y ∧ gaussianBlur k W H m x y ≤ 1 := by
  unfold gaussianBlur
  constructor
  · apply Finset.sum_nonneg
    intro i _
    apply Finset.sum_nonneg
    intro j _
    exact mul_nonneg (mul_nonneg (gaussNW_nonneg k i) (gaussNW_nonneg k j))
      (hm _ _).1
  · have h1 : ∑ i in Finset.Icc (-(kRad k : ℤ)) (kRad k : ℤ),
        ∑ j in Finset.Icc (-(kRad k : ℤ)) (kRad k : ℤ),
          gaussNW k i * gaussNW k j *
            m (reflect101 W ((x : ℤ) + i)) (reflect101 H ((y : ℤ) + j)) ≤
        ∑ i in Finset.Icc (-(kRad k : ℤ)) (kRad k : ℤ),
          ∑ j in Finset.Icc (-(kRad k : ℤ)) (kRad k : ℤ),
            gaussNW k i * gaussNW k j := by
      apply Finset.sum_le_sum
      intro i _
      apply Finset.sum_le_sum
      intro j _
      exact mul_le_of_le_one_right
        (mul_nonneg (gaussNW_nonneg k i) (gaussNW_nonneg k j)) (hm _ _).2
    have h2 : (∑ i in Finset.Icc (-(kRad k : ℤ)) (kRad k : ℤ),
        ∑ j in Finset.Icc (-(kRad k : ℤ)) (kRad k : ℤ),
          gaussNW k i * gaussNW k j) = 1 := by
      rw [← Finset.sum_mul_sum, gaussNW_sum, one_mul]
    exact le_trans h1 (le_of_eq h2)

lemma baseMask_mem (s : ShadowShape) (x y : ℕ) :
    0 ≤ baseMask s x y ∧ baseMask s x y ≤ 1 := by
  cases s <;> simp only [baseMask] <;> split <;> norm_num

lemma shadowMask_mem (W H : ℕ) (s : ShadowShape) (x y : ℕ) :
    0 ≤ shadowMask W H s x y ∧ shadowMask W H s x y ≤ 1 :=
  gaussianBlur_mem (ksizeOf s) W H (baseMask s)
    (fun x y => baseMask_mem s x y) x y

lemma shadowFold_bounds (W H : ℕ) (i : ℝ) (hi0 : 0 ≤ i) (hi1 : i ≤ 1)
    (ss : List ShadowShape) :
    ∀ (f : ℕ → ℕ → Fin 3 → ℝ) (x y : ℕ) (c : Fin 3), 0 ≤ f x y c →
      0 ≤ (ss.foldl (shadowStep W H i) f) x y c ∧
        (ss.foldl (shadowStep W H i) f) x y c ≤ f x y c := by
  induction ss with
  | nil => exact fun f x y c h => ⟨h, le_rfl⟩
  | cons s ss ih =>
    intro f x y c h
    have hm := shadowMask_mem W H s x y
    have hfac0 : 0 ≤ 1 - i * shadowMask W H s x y := by nlinarith [hm.1, hm.2]
    have hfac1 : 1 - i * shadowMask W H s x y ≤ 1 := by nlinarith [hm.1, hm.2]
    have hstep0 : 0 ≤ shadowStep W H i f s x y c := by
      unfold shadowStep
      exact mul_nonneg h hfac0
    have hstep_le : shadowStep W H i f s x y c ≤ f x y c := by
      unfold shadowStep
      exact mul_le_of_le_one_right h hfac1
    obtain ⟨h0, hle⟩ := ih (shadowStep W H i f s) x y c hstep0
    exact ⟨h0, le_trans hle hstep_le⟩

/-- C7 (confirmed): for every valid image, every intensity in [0, 1], and
every list of shadow instances, add_shadow_effect never increases any
channel value of any pixel; each instance's multiplicative darkening
factor is applied to the result of the previous one. -/
theorem shadow_monotone (image : Image) (intensity : ℝ)
    (shadows : List ShadowShape) (hi0 : 0 ≤ intensity)
    (hi1 : intensity ≤ 1) (hv : image.valid8) (x y : ℕ) (c : Fin 3) :
    (add_shadow_effect image intensity shadows).pix x y c ≤
      image.pix x y c := by
  show toU8 (min 255 (max 0 (shadowFloat image intensity shadows x y c))) ≤
    image.pix x y c
  unfold shadowFloat
  have h255 : ((image.pix x y c : ℕ) : ℝ) ≤ 255 := by exact_mod_cast hv x y c
  obtain ⟨h0, hle⟩ := shadowFold_bounds image.width image.height intensity
    hi0 hi1 shadows (fun x y c => ((image.pix x y c : ℕ) : ℝ)) x y c
    (Nat.cast_nonneg _)
  rw [max_eq_right h0, min_eq_right (le_trans hle h255)]
  exact toU8_le _ _ h0 hle (hv x y c)

/-- Witness for shadow monotonicity on the all-black 50 x 50 image with a
rectangular shadow. -/
theorem shadow_monotone_witness :
    (0 : ℝ) ≤ 4 / 10 ∧ (4 / 10 : ℝ) ≤ 1 ∧
    (add_shadow_effect black50 (4 / 10) [ShadowShape.rect 0 0 10 10]).pix
      5 5 0 ≤ black50.pix 5 5 0 :=
  ⟨by norm_num, by norm_num,
   shadow_monotone black50 (4 / 10) [ShadowShape.rect 0 0 10 10]
     (by norm_num) (by norm_num) (fun _ _ _ => Nat.zero_le 255) 5 5 0⟩

/-- C4 counterexample: for the unrecognised effect type sparkle the engine
does not fail with InvalidEffectSpec (no such error exists in the code):
apply_lighting_effects falls off the end and returns Python None, and
add_uneven_lighting with an unrecognised kind raises NameError instead. -/
theorem unknown_effect_cex :
    apply_lighting_effects black50 "sparkle" (6 / 10) (4 / 10) (1 / 2) lrand0 =
      LOutcome.pyNone ∧
    apply_lighting_effects black50 "sparkle" (6 / 10) (4 / 10) (1 / 2) lrand0 ≠
      LOutcome.raised PyErr.invalidEffectSpec ∧
    add_uneven_lighting black50 "sparkle" (1 / 2) ⟨GradDir.horizontal, 0, 0⟩ =
      Except.error PyErr.nameError := by
  refine ⟨?_, ?_, ?_⟩
  · simp [apply_lighting_effects]
  · simp [apply_lighting_effects]
  · simp [add_uneven_lighting]

/-- C4 (amended): for every effect type outside the recognised set,
apply_lighting_effects silently returns Python None rather than raising,
and for every uneven-lighting kind outside the recognised set,
add_uneven_lighting raises a NameError (the unbound local gradient), not a
structured InvalidEffectSpec error. -/
theorem unknown_effect_spec (image : Image) (effect_type lt : String)
    (gi si li i : ℝ) (r : LRand) (u : URand)
    (he : effect_type ∉ ["glare", "shadow", "uneven_light", "combined", "all"])
    (hl : lt ∉ lightingTypes) :
    apply_lighting_effects image effect_type gi si li r = LOutcome.pyNone ∧
    add_uneven_lighting image lt i u = Except.error PyErr.nameError := by
  simp only [List.mem_cons, List.not_mem_nil, or_false, not_or] at he
  simp only [lightingTypes, List.mem_cons, List.not_mem_nil, or_false,
    not_or] at hl
  obtain ⟨h1, h2, h3, h4, h5⟩ := he
  obtain ⟨g1, g2, g3⟩ := hl
  constructor
  · unfold apply_lighting_effects
    rw [if_neg h1, if_neg h2, if_neg h3, if_neg h4, if_neg h5]
  · unfold add_uneven_lighting
    rw [if_neg g1, if_neg g2, if_neg g3]

/-- Witness for the unknown-effect behaviour at the concrete unrecognised
kind sparkle. -/
theorem unknown_effect_spec_witness :
    ("sparkle" ∉ ["glare", "shadow", "uneven_light", "combined", "all"]) ∧
    ("sparkle" ∉ lightingTypes) ∧
    apply_lighting_effects black50 "sparkle" 0 0 0 lrand0 =
      LOutcome.pyNone ∧
    add_uneven_lighting black50 "sparkle" 0 ⟨GradDir.horizontal, 0, 0⟩ =
      Except.error PyErr.nameError :=
  ⟨by decide, by decide,
   (unknown_effect_spec black50 "sparkle" "sparkle" 0 0 0 0 lrand0
     ⟨GradDir.horizontal, 0, 0⟩ (by decide) (by decide)).1,
   (unknown_effect_spec black50 "sparkle" "sparkle" 0 0 0 0 lrand0
     ⟨GradDir.horizontal, 0, 0⟩ (by decide) (by decide)).2⟩

/-- C10 (confirmed): for every nonempty image and recognised effect kind,
each lighting operation preserves the image's width, height (and the
three-channel layout carried by the pixel type), and produces 8-bit
channel values bounded by 255, for every intensity including values
outside [0, 1]. -/
theorem lighting_preserves_shape (image : Image) (hW : 0 < image.width)
    (hH : 0 < image.height) (gi si li : ℝ) (gs : List GlareParams)
    (ss : List ShadowShape) (u : URand) :
    ((add_glare_effect image gi gs).width = image.width ∧
      (add_glare_effect image gi gs).height = image.height ∧
      ∀ x y c, (add_glare_effect image gi gs).pix x y c ≤ 255) ∧
    ((add_shadow_effect image si ss).width = image.width ∧
      (add_shadow_effect image si ss).height = image.height ∧
      ∀ x y c, (add_shadow_effect image si ss).pix x y c ≤ 255) ∧
    (∀ lt ∈ lightingTypes, ∃ out,
      add_uneven_lighting image lt li u = Except.ok out ∧
      out.width = image.width ∧ out.height = image.height ∧
      ∀ x y c, out.pix x y c ≤ 255) := by
  refine ⟨⟨rfl, rfl, fun x y c => toU8_le_255 _⟩,
    ⟨rfl, rfl, fun x y c => toU8_le_255 _⟩, ?_⟩
  intro lt hlt
  simp only [lightingTypes, List.mem_cons, List.not_mem_nil, or_false] at hlt
  rcases hlt with rfl | rfl | rfl
  · exact ⟨applyGain image (gradientGain image.width image.height li u.dir),
      by simp [add_uneven_lighting], rfl, rfl, fun x y c => toU8_le_255 _⟩
  · exact ⟨applyGain image
        (spotlightGain image.width image.height li u.off_x u.off_y),
      by simp [add_uneven_lighting], rfl, rfl, fun x y c => toU8_le_255 _⟩
  · exact ⟨applyGain image (vignetteGain image.width image.height li),
      by simp [add_uneven_lighting], rfl, rfl, fun x y c => toU8_le_255 _⟩

/-- Witness for shape and range preservation on the all-black 50 x 50
image. -/
theorem lighting_preserves_shape_witness :
    0 < black50.width ∧ 0 < black50.height ∧
    (add_glare_effect black50 (6 / 10) []).width = black50.width ∧
    (add_shadow_effect black50 (4 / 10) []).pix 0 0 0 ≤ 255 :=
  ⟨by decide, by decide,
   (lighting_preserves_shape black50 (by decide) (by decide) (6 / 10)
     (4 / 10) (1 / 2) [] [] ⟨GradDir.horizontal, 0, 0⟩).1.1,
   (lighting_preserves_shape black50 (by decide) (by decide) (6 / 10)
     (4 / 10) (1 / 2) [] [] ⟨GradDir.horizontal, 0, 0⟩).2.1.2.2 0 0 0⟩

lemma write_fold_frame (i : ℝ) (cid : ℕ) (gs : List GlareParams) :
    ∀ (hh : Heap) (b : ℕ), b ≠ cid →
      ((gs.foldl (fun hh g => hh.write cid (glareStep i (hh.bufs cid) g))
          hh).bufs b = hh.bufs b ∧
       (gs.foldl (fun hh g => hh.write cid (glareStep i (hh.bufs cid) g))
          hh).next = hh.next) := by
  induction gs with
  | nil => exact fun hh b hb => ⟨rfl, rfl⟩
  | cons g gs ih =>
    intro hh b hb
    obtain ⟨h1, h2⟩ :=
      ih (hh.write cid (glareStep i (hh.bufs cid) g)) b hb
    exact ⟨h1.trans (Function.update_noteq hb _ _), h2⟩

lemma alloc_fold_frame (step : (ℕ × Heap) → ShadowShape → (ℕ → ℕ → Fin 3 → ℝ))
    (ss : List ShadowShape) :
    ∀ (p : ℕ × Heap) (b : ℕ), b < p.2.next →
      ((ss.foldl (fun p s => p.2.alloc (step p s)) p).2.bufs b = p.2.bufs b ∧
        b < (ss.foldl (fun p s => p.2.alloc (step p s)) p).2.next) := by
  induction ss with
  | nil => exact fun p b hb => ⟨rfl, hb⟩
  | cons s ss ih =>
    intro p b hb
    have hb' : b < (p.2.alloc (step p s)).2.next := by
      show b < p.2.next + 1
      omega
    obtain ⟨h1, h2⟩ := ih (p.2.alloc (step p s)) b hb'
    refine ⟨h1.trans ?_, h2⟩
    exact Function.update_noteq (by omega) _ _

/-- C9 (confirmed): every lighting operation leaves the caller's buffer
untouched and returns a buffer distinct from it: the working copy and the
result are fresh allocations, and in-place mutation happens only on the
working copy. -/
theorem lighting_no_alias (h : Heap) (src : ℕ) (hs : src < h.next)
    (i j : ℝ) (gs : List GlareParams) (ss : List ShadowShape) (W H : ℕ)
    (gain : ℕ → ℕ → ℝ) :
    ((add_glare_heap h src i gs).1 ≠ src ∧
      (add_glare_heap h src i gs).2.bufs src = h.bufs src) ∧
    ((add_shadow_heap h src j ss W H).1 ≠ src ∧
      (add_shadow_heap h src j ss W H).2.bufs src = h.bufs src) ∧
    ((add_uneven_heap h src gain).1 ≠ src ∧
      (add_uneven_heap h src gain).2.bufs src = h.bufs src) := by
  obtain ⟨kg1, kg2⟩ := write_fold_frame i h.next gs
    ⟨Function.update h.bufs h.next (h.bufs src), h.next + 1⟩ src (by omega)
  have hgnext : (gs.foldl
      (fun hh g => hh.write h.next (glareStep i (hh.bufs h.next) g))
      ((⟨Function.update h.bufs h.next (h.bufs src), h.next + 1⟩ : Heap))).next =
      h.next + 1 := kg2
  obtain ⟨ks1, ks2⟩ := alloc_fold_frame
    (fun p s => fun x y c =>
      p.2.bufs p.1 x y c * (1 - j * shadowMask W H s x y)) ss
    (h.next, ⟨Function.update h.bufs h.next (h.bufs src), h.next + 1⟩)
    src (by show src < h.next + 1; omega)
  refine ⟨⟨?_, ?_⟩, ⟨?_, ?_⟩, ⟨?_, ?_⟩⟩
  · exact show (gs.foldl
        (fun hh g => hh.write h.next (glareStep i (hh.bufs h.next) g))
        ((⟨Function.update h.bufs h.next (h.bufs src), h.next + 1⟩ : Heap))).next ≠ src
      by rw [hgnext]; omega
  · exact (Function.update_noteq
        (show src ≠ (gs.foldl
          (fun hh g => hh.write h.next (glareStep i (hh.bufs h.next) g))
          ((⟨Function.update h.bufs h.next (h.bufs src), h.next + 1⟩ : Heap))).next
          by rw [hgnext]; omega) _ _).trans
      (kg1.trans (Function.update_noteq (show src ≠ h.next by omega) _ _))
  · exact Ne.symm (Nat.ne_of_lt ks2)
  · exact (Function.update_noteq (Nat.ne_of_lt ks2) _ _).trans
      (ks1.trans (Function.update_noteq (show src ≠ h.next by omega) _ _))
  · exact show h.next + 1 + 1 ≠ src by omega
  · exact (Function.update_noteq (show src ≠ h.next + 1 + 1 by omega) _ _).trans
      ((Function.update_noteq (show src ≠ h.next + 1 by omega) _ _).trans
        (Function.update_noteq (show src ≠ h.next by omega) _ _))

/-- Witness for the no-alias property on a one-buffer heap. -/
theorem lighting_no_alias_witness :
    (0 : ℕ) < (Heap.mk (fun _ => fun _ _ _ => 0) 1).next ∧
    (add_glare_heap (Heap.mk (fun _ => fun _ _ _ => 0) 1) 0 (7 / 10) []).1 ≠ 0 :=
  ⟨by decide,
   (lighting_no_alias (Heap.mk (fun _ => fun _ _ _ => 0) 1) 0 (by decide)
     (7 / 10) (4 / 10) [] [] 50 50 (fun _ _ => 1)).1.1⟩

lemma getPT_self (p0 p1 p2 p3 : ℚ × ℚ) :
    getPerspectiveTransform p0 p1 p2 p3 p0 p1 p2 p3 =
      (frameMat p0 p1 p2 p3).det • 1 := by
  simp only [getPerspectiveTransform]
  exact Matrix.mul_adjugate _

lemma frameMat_corners_det (w h : ℚ) :
    (frameMat (0, 0) (w, 0) (0, h) (w, h)).det = -(w ^ 4 * h ^ 4) := by
  simp only [frameMat]
  rw [Matrix.det_mul, Matrix.det_diagonal]
  simp [Matrix.det_fin_three, Fin.prod_univ_three]
  ring

lemma adjugate_smul_one (c : ℚ) :
    (c • (1 : Matrix (Fin 3) (Fin 3) ℚ)).adjugate = c ^ 2 • 1 := by
  rw [Matrix.adjugate_smul, Matrix.adjugate_one]
  norm_num

lemma smul_one_entry_eq (c : ℚ) (i : Fin 3) :
    (c • (1 : Matrix (Fin 3) (Fin 3) ℚ)) i i = c := by
  rw [Matrix.smul_apply, Matrix.one_apply_eq, smul_eq_mul, mul_one]

lemma smul_one_entry_ne (c : ℚ) (i j : Fin 3) (h : i ≠ j) :
    (c • (1 : Matrix (Fin 3) (Fin 3) ℚ)) i j = 0 := by
  rw [Matrix.smul_apply, Matrix.one_apply_ne h, smul_zero]

lemma projInv_smul_one (c : ℚ) (hc : c ≠ 0) (x y : ℚ) :
    projInv (c • (1 : Matrix (Fin 3) (Fin 3) ℚ)) x y = some (x, y) := by
  simp only [projInv, adjugate_smul_one]
  rw [smul_one_entry_eq, smul_one_entry_eq, smul_one_entry_eq,
    smul_one_entry_ne _ _ _ (by decide), smul_one_entry_ne _ _ _ (by decide),
    smul_one_entry_ne _ _ _ (by decide), smul_one_entry_ne _ _ _ (by decide),
    smul_one_entry_ne _ _ _ (by decide), smul_one_entry_ne _ _ _ (by decide)]
  rw [if_neg (show ¬(0 * x + 0 * y + c ^ 2 = 0) by
    intro h
    exact pow_ne_zero 2 hc (by linarith))]
  rw [show c ^ 2 * x + 0 * y + 0 = c ^ 2 * x by ring,
    show 0 * x + c ^ 2 * y + 0 = c ^ 2 * y by ring,
    show 0 * x + 0 * y + c ^ 2 = c ^ 2 by ring]
  rw [mul_div_cancel_left₀ x (pow_ne_zero 2 hc),
    mul_div_cancel_left₀ y (pow_ne_zero 2 hc)]

lemma bilinear_nat (img : Image) (x y : ℕ) (hx : x < img.width)
    (hy : y < img.height) (c : Fin 3) :
    bilinear img ((x : ℕ) : ℚ) ((y : ℕ) : ℚ) c = img.pix x y c := by
  simp only [bilinear, Int.floor_natCast]
  rw [show ((x : ℕ) : ℚ) - ((x : ℤ) : ℚ) = 0 by push_cast; ring,
    show ((y : ℕ) : ℚ) - ((y : ℤ) : ℚ) = 0 by push_cast; ring]
  rw [pixAt, if_pos]
  · simp [Int.toNat_natCast]
  · refine ⟨Int.natCast_nonneg x, ?_, Int.natCast_nonneg y, ?_⟩
    · exact_mod_cast hx
    · exact_mod_cast hy

lemma satCastU8_natCast (p : ℕ) (hp : p ≤ 255) : satCastU8 ((p : ℕ) : ℚ) = p := by
  unfold satCastU8 rne
  rw [if_neg, round_natCast]
  · rw [max_eq_right (Int.natCast_nonneg p),
      min_eq_right (by exact_mod_cast hp), Int.toNat_natCast]
  · rw [Int.floor_natCast]
    push_cast
    norm_num

lemma warp_smul_one_pix (img : Image) (c : ℚ) (hc : c ≠ 0) (sz : ℕ × ℕ)
    (hv : img.valid8) (x y : ℕ) (hx : x < img.width) (hy : y < img.height)
    (ch : Fin 3) :
    (warpPerspective img (c • 1) sz).pix x y ch = img.pix x y ch := by
  show (match projInv (c • 1) ((x : ℕ) : ℚ) ((y : ℕ) : ℚ) with
    | none => 0
    | some p => satCastU8 (bilinear img p.1 p.2 ch)) = img.pix x y ch
  rw [projInv_smul_one c hc]
  show satCastU8 (bilinear img ((x : ℕ) : ℚ) ((y : ℕ) : ℚ) ch) = img.pix x y ch
  rw [bilinear_nat img x y hx hy ch, satCastU8_natCast _ (hv x y ch)]

lemma corners_det_ne (w h : ℕ) (hw : 0 < w) (hh : 0 < h) :
    (frameMat (0, 0) ((w : ℚ), 0) (0, (h : ℚ)) ((w : ℚ), (h : ℚ))).det ≠ 0 := by
  rw [frameMat_corners_det]
  have hw' : ((w : ℚ)) ≠ 0 := Nat.cast_ne_zero.2 hw.ne'
  have hh' : ((h : ℚ)) ≠ 0 := Nat.cast_ne_zero.2 hh.ne'
  intro hdet
  apply hw'
  have := neg_eq_zero.1 hdet
  have h4 : (w : ℚ) ^ 4 = 0 ∨ (h : ℚ) ^ 4 = 0 := mul_eq_zero.1 this
  rcases h4 with h4 | h4
  · exact pow_eq_zero_iff (by norm_num) |>.1 h4
  · exact absurd (pow_eq_zero_iff (by norm_num) |>.1 h4) hh'

/-- C8 (confirmed): horizontal-mode skew with factor 0 and vertical-mode
skew with factor 0 both keep the canvas at the original size, derive the
identity projective mapping (all four destination corners coincide with
the source corners), and reproduce the input image pixel for pixel. -/
theorem skew_zero_identity (image : Image) (hW : 0 < image.width)
    (hH : 0 < image.height) (hv : image.valid8) :
    ((apply_horizontal_skew image 0).width = image.width ∧
      (apply_horizontal_skew image 0).height = image.height ∧
      ∀ x y c, x < image.width → y < image.height →
        (apply_horizontal_skew image 0).pix x y c = image.pix x y c) ∧
    ((apply_vertical_skew image 0).width = image.width ∧
      (apply_vertical_skew image 0).height = image.height ∧
      ∀ x y c, x < image.width → y < image.height →
        (apply_vertical_skew image 0).pix x y c = image.pix x y c) := by
  have hcanvas : (⌊(image.width : ℚ) + |(0 : ℚ)|⌋).toNat = image.width := by
    rw [abs_zero, add_zero, Int.floor_natCast, Int.toNat_natCast]
  have hMh : getPerspectiveTransform
      (0, 0) ((image.width : ℚ), 0) (0, (image.height : ℚ))
      ((image.width : ℚ), (image.height : ℚ))
      (0, 0) ((image.width : ℚ), 0)
      ((0 : ℚ) * (image.height : ℚ), (image.height : ℚ))
      ((image.width : ℚ) + (0 : ℚ) * (image.height : ℚ), (image.height : ℚ)) =
      (frameMat (0, 0) ((image.width : ℚ), 0) (0, (image.height : ℚ))
        ((image.width : ℚ), (image.height : ℚ))).det • 1 := by
    rw [show ((image.width : ℚ) + (0 : ℚ) * (image.height : ℚ)) =
        (image.width : ℚ) by ring,
      show ((0 : ℚ) * (image.height : ℚ)) = 0 by ring]
    exact getPT_self _ _ _ _
  have hMv : getPerspectiveTransform
      (0, 0) ((image.width : ℚ), 0) (0, (image.height : ℚ))
      ((image.width : ℚ), (image.height : ℚ))
      (0, 0) ((image.width : ℚ) + (0 : ℚ) * (image.width : ℚ), 0)
      (0, (image.height : ℚ)) ((image.width : ℚ), (image.height : ℚ)) =
      (frameMat (0, 0) ((image.width : ℚ), 0) (0, (image.height : ℚ))
        ((image.width : ℚ), (image.height : ℚ))).det • 1 := by
    rw [show ((image.width : ℚ) + (0 : ℚ) * (image.width : ℚ)) = (image.width : ℚ)
        by ring]
    exact getPT_self _ _ _ _
  have hdet := corners_det_ne image.width image.height hW hH
  constructor
  · refine ⟨?_, rfl, ?_⟩
    · show (⌊(image.width : ℚ) + |(0 : ℚ) * (image.height : ℚ)|⌋).toNat =
        image.width
      rw [show ((0 : ℚ) * (image.height : ℚ)) = 0 by ring]
      exact hcanvas
    · intro x y c hx hy
      show (warpPerspective image (getPerspectiveTransform
          (0, 0) ((image.width : ℚ), 0) (0, (image.height : ℚ))
          ((image.width : ℚ), (image.height : ℚ))
          (0, 0) ((image.width : ℚ), 0)
          ((0 : ℚ) * (image.height : ℚ), (image.height : ℚ))
          ((image.width : ℚ) + (0 : ℚ) * (image.height : ℚ),
            (image.height : ℚ))) _).pix x y c = image.pix x y c
      rw [hMh]
      exact warp_smul_one_pix image _ hdet _ hv x y hx hy c
  · refine ⟨?_, rfl, ?_⟩
    · show (⌊(image.width : ℚ) + |(0 : ℚ) * (image.width : ℚ)|⌋).toNat =
        image.width
      rw [show ((0 : ℚ) * (image.width : ℚ)) = 0 by ring]
      exact hcanvas
    · intro x y c hx hy
      show (warpPerspective image (getPerspectiveTransform
          (0, 0) ((image.width : ℚ), 0) (0, (image.height : ℚ))
          ((image.width : ℚ), (image.height : ℚ))
          (0, 0) ((image.width : ℚ) + (0 : ℚ) * (image.width : ℚ), 0)
          (0, (image.height : ℚ))
          ((image.width : ℚ), (image.height : ℚ))) _).pix x y c =
        image.pix x y c
      rw [hMv]
      exact warp_smul_one_pix image _ hdet _ hv x y hx hy c

/-- Witness for the zero-skew identity on a 1 x 1 image. -/
theorem skew_zero_identity_witness :
    0 < img1x1.width ∧ 0 < img1x1.height ∧
    (apply_horizontal_skew img1x1 0).width = img1x1.width ∧
    (apply_vertical_skew img1x1 0).pix 0 0 0 = img1x1.pix 0 0 0 :=
  ⟨by decide, by decide,
   (skew_zero_identity img1x1 (by decide) (by decide)
     (fun _ _ _ => (by decide : (7 : ℕ) ≤ 255))).1.1,
   (skew_zero_identity img1x1 (by decide) (by decide)
     (fun _ _ _ => (by decide : (7 : ℕ) ≤ 255))).2.2.2 0 0 0
     (by decide) (by decide)⟩

end Passports
